import Mathlib

set_option maxRecDepth 100000

/-!
Shallow embedding of the sequence-diagram tool's core (`src/app/page.tsx`):
the line-oriented parser `parse` and the SVG renderer `buildSvg`, together
with proofs of the specification claims about them.

Modelling conventions:
* JS strings are Lean `String`s; the regex matchers work on `List Char`
  (`String.data`) and follow the source regexes' backtracking semantics,
  specialised to the deterministic cases that arise for these patterns
  (each such specialisation is justified in a comment).
* JS numbers are exact rationals (`ℚ`); the slider-driven layout metrics
  are naturals.  `Math.round` on the nonnegative values that occur is
  `(x * 31 + 50) / 100` in natural division.  Number-to-string conversion
  prints the exact terminating decimal expansion, which agrees with JS
  printing on all integer and half-integer values the geometry produces.
* The source keeps a `Map` from participant id to participant that always
  mirrors the participant list; the embedding tests membership in the
  list of ids directly.
-/

namespace Mermaid

/-- JS regex `\s` (also the character class used by `String.prototype.trim`). -/
def jsSpace (c : Char) : Bool :=
  c = ' ' ∨ c = '\t' ∨ c = '\n' ∨ c = '\r' ∨ c = '\x0b' ∨ c = '\x0c' ∨
  c = '\u00a0' ∨ c = '\u1680' ∨
  ('\u2000' ≤ c ∧ c ≤ '\u200a') ∨
  c = '\u2028' ∨ c = '\u2029' ∨ c = '\u202f' ∨ c = '\u205f' ∨
  c = '\u3000' ∨ c = '\ufeff'

/-- JS regex `.` (without the `s` flag): any character except a line terminator. -/
def charDot (c : Char) : Bool :=
  ¬ (c = '\n' ∨ c = '\r' ∨ c = '\u2028' ∨ c = '\u2029')

/-- JS regex `\w`. -/
def wordChar (c : Char) : Bool :=
  ('a' ≤ c ∧ c ≤ 'z') ∨ ('A' ≤ c ∧ c ≤ 'Z') ∨ ('0' ≤ c ∧ c ≤ '9') ∨ c = '_'

/-- JS regex `\d`. -/
def digitChar (c : Char) : Bool := '0' ≤ c ∧ c ≤ '9'

/-- `String.prototype.trim`. -/
def jsTrim (l : List Char) : List Char :=
  ((l.dropWhile jsSpace).reverse.dropWhile jsSpace).reverse

/-- Numeric value of a digit string (`parseInt` on a `\d+` capture). -/
def natOfDigits (l : List Char) : Nat :=
  l.foldl (fun acc c => 10 * acc + (c.toNat - 48)) 0

/-- One pattern character of a case-insensitive (non-unicode) JS regex matched
against an input character: the ASCII-lowercase pattern letter matches itself
and its ASCII uppercase form, everything else matches literally. -/
def charCI (p c : Char) : Bool := c = p ∨ c.toLower = p

/-- The pattern matches the candidate character-for-character under `charCI`. -/
def ciEq : List Char → List Char → Bool
  | [], [] => true
  | p :: ps, c :: cs => charCI p c && ciEq ps cs
  | _, _ => false

/-- Strip a literal (case-insensitively matched) pattern from the front of the
input, returning the remainder. -/
def stripCI : List Char → List Char → Option (List Char)
  | [], l => some l
  | _ :: _, [] => none
  | p :: ps, c :: cs => if charCI p c then stripCI ps cs else none

/-- `l.isPrefixOf`-style check used for the skip directives (case sensitive). -/
def hasPref : List Char → List Char → Bool
  | [], _ => true
  | _ :: _, [] => false
  | p :: ps, c :: cs => p = c && hasPref ps cs

/-- Line 36 of the source: blank lines and
`/^(%%|sequenceDiagram|autonumber|---|```)/` are skipped. -/
def skipLine (l : List Char) : Bool :=
  l.isEmpty || hasPref "%%".data l || hasPref "sequenceDiagram".data l ||
  hasPref "autonumber".data l || hasPref "---".data l || hasPref "```".data l

/-- `/^title:\s*(.+)$/i` applied to a line, returning the trimmed capture the
source stores (`tm[1].trim()`).  The greedy `\s*` leaves the capture starting
at the first non-space; if only spaces remain, backtracking hands the last
space character to `.+` (so the trimmed capture is empty), provided it is not
a line terminator. -/
def matchTitle (l : List Char) : Option (List Char) :=
  match stripCI "title:".data l with
  | none => none
  | some rest =>
    let cap := rest.dropWhile jsSpace
    if cap ≠ [] then
      if cap.all charDot then some (jsTrim cap) else none
    else
      match rest.getLast? with
      | some c => if charDot c then some [] else none
      | none => none

/-- `/^participant\s+(\S+)(?:\s+as\s+(.+))?$/i`: id and optional alias label.
`\S+` is forced to the maximal non-space run, and the optional alias group
must then consume the whole remainder or the match fails. -/
def matchParticipant (l : List Char) : Option (List Char × Option (List Char)) :=
  match stripCI "participant".data l with
  | none => none
  | some r1 =>
    match r1 with
    | [] => none
    | c :: _ =>
      if ¬ jsSpace c then none else
      let r2 := r1.dropWhile jsSpace
      let id := r2.takeWhile (fun c => ¬ jsSpace c)
      if id = [] then none else
      let r3 := r2.dropWhile (fun c => ¬ jsSpace c)
      match r3 with
      | [] => some (id, none)
      | c :: _ =>
        if ¬ jsSpace c then none else
        let r4 := r3.dropWhile jsSpace
        match stripCI "as".data r4 with
        | none => none
        | some r5 =>
          match r5 with
          | [] => none
          | c :: _ =>
            if ¬ jsSpace c then none else
            let cap := r5.dropWhile jsSpace
            if cap ≠ [] then
              if cap.all charDot then some (id, some cap) else none
            else
              match r5.getLast? with
              | some c => if charDot c ∧ r5.length ≥ 2 then some (id, some [c]) else none
              | none => none

/-- The arrow alternation `(-->>|->>|-->|->)`, tried in source order.  If a
longer token matches but the rest of the pattern fails, the shorter token of
the same pair leaves a `>` in front of `\s*(\w+)`, which also fails, so
committing to the first matching token is faithful. -/
def matchTok (l : List Char) : Option (List Char × List Char) :=
  if hasPref "-->>".data l then some ("-->>".data, l.drop 4)
  else if hasPref "->>".data l then some ("->>".data, l.drop 3)
  else if hasPref "-->".data l then some ("-->".data, l.drop 3)
  else if hasPref "->".data l then some ("->".data, l.drop 2)
  else none

/-- `/^(\w+)\s*(-->>|->>|-->|->)\s*(\w+):\s*(.*)$/`: source id, arrow token,
destination id and raw message text (with the leading `\s*` of the text
consumed by greedy matching). -/
def matchMessage (l : List Char) :
    Option (List Char × List Char × List Char × List Char) :=
  let f := l.takeWhile wordChar
  if f = [] then none else
  let r1 := (l.dropWhile wordChar).dropWhile jsSpace
  match matchTok r1 with
  | none => none
  | some (tok, r2) =>
    let r3 := r2.dropWhile jsSpace
    let t := r3.takeWhile wordChar
    if t = [] then none else
    match r3.dropWhile wordChar with
    | ':' :: r4 =>
      let text := r4.dropWhile jsSpace
      if text.all charDot then some (f, tok, t, text) else none
    | _ => none

/-- One attempt of `/<br\s*\/?>/gi` at the current position, returning the
remainder after the match. -/
def matchBr : List Char → Option (List Char)
  | '<' :: c1 :: c2 :: rest =>
    if (c1 = 'b' ∨ c1 = 'B') ∧ (c2 = 'r' ∨ c2 = 'R') then
      match rest.dropWhile jsSpace with
      | '/' :: '>' :: r2 => some r2
      | '>' :: r2 => some r2
      | _ => none
    else none
  | _ => none

theorem matchBr_length {l r : List Char} (h : matchBr l = some r) :
    r.length < l.length := by
  match l with
  | '<' :: c1 :: c2 :: rest =>
    simp only [matchBr] at h
    split at h
    · have hd : (rest.dropWhile jsSpace).length ≤ rest.length :=
        (List.dropWhile_sublist jsSpace).length_le
      split at h <;> first
        | (injection h with h; subst h; simp_all; omega)
        | exact absurd h (by simp)
    · exact absurd h (by simp)
  | [] => simp [matchBr] at h
  | ['<'] => simp [matchBr] at h
  | ['<', c] => simp [matchBr] at h
  | c :: l' =>
    by_cases hc : c = '<'
    · subst hc
      match l' with
      | [] => simp [matchBr] at h
      | [c1] => simp [matchBr] at h
      | c1 :: c2 :: rest =>
        simp only [matchBr] at h
        split at h
        · have hd : (rest.dropWhile jsSpace).length ≤ rest.length :=
            (List.dropWhile_sublist jsSpace).length_le
          split at h <;> first
            | (injection h with h; subst h; simp_all; omega)
            | exact absurd h (by simp)
        · exact absurd h (by simp)
    · rw [show matchBr (c :: l') = none by
        cases l' with
        | nil => simp [matchBr]
        | cons c1 l'' => cases l'' with
          | nil =>
            cases c <;> simp_all [matchBr]
          | cons c2 rest =>
            cases c <;> simp_all [matchBr]] at h
      exact absurd h (by simp)

/-- `rawText.replace(/<br\s*\/?>/gi, " ")`: each non-overlapping leftmost
match is replaced by a single space.  The fuel argument — instantiated with
the length of the list, which bounds the number of steps since every step
consumes at least one character — keeps the recursion structural. -/
def replaceBrF : Nat → List Char → List Char
  | 0, l => l
  | _ + 1, [] => []
  | fuel + 1, c :: cs =>
    match matchBr (c :: cs) with
    | some rest => ' ' :: replaceBrF fuel rest
    | none => c :: replaceBrF fuel cs

def replaceBr (l : List Char) : List Char := replaceBrF l.length l

/-- `/^(\d+)\.\s+([\s\S]*)$/` on the cleaned text: explicit display step and
remaining text (the text still to be trimmed by the caller). -/
def numPfx (l : List Char) : Option (Nat × List Char) :=
  let ds := l.takeWhile digitChar
  if ds = [] then none else
  match l.dropWhile digitChar with
  | '.' :: r =>
    match r with
    | c :: _ => if jsSpace c then some (natOfDigits ds, r.dropWhile jsSpace) else none
    | [] => none
  | _ => none

/-- Scan to the closing bracket of the lazy group in `/\[(.+?)\]/`: the
characters before the first `]` (all of which `.` must match) and the
remainder after it. -/
def splitClose : List Char → Option (List Char × List Char)
  | [] => none
  | ']' :: r => some ([], r)
  | c :: r =>
    if charDot c then
      match splitClose r with
      | some (p, q) => some (c :: p, q)
      | none => none
    else none

theorem splitClose_length {l : List Char} {p q : List Char}
    (h : splitClose l = some (p, q)) : q.length < l.length := by
  induction l generalizing p q with
  | nil => simp [splitClose] at h
  | cons c r ih =>
    by_cases hc : c = ']'
    · subst hc
      simp only [splitClose] at h
      injection h with h
      injection h with h1 h2
      subst h2; simp
    · rw [show splitClose (c :: r) =
          (if charDot c then
            match splitClose r with
            | some (p, q) => some (c :: p, q)
            | none => none
          else none) by
        cases c <;> simp_all [splitClose]] at h
      split at h
      · match hr : splitClose r with
        | some (p', q') =>
          rw [hr] at h
          injection h with h
          injection h with h1 h2
          subst h2
          exact Nat.lt_succ_of_lt (ih hr)
        | none => rw [hr] at h; exact absurd h (by simp)
      · exact absurd h (by simp)

/-- `(label ?? id).replace(/\[(.+?)\]/g, "($1)")` (line 30): every leftmost,
non-overlapping, lazy bracketed group is rewritten to parentheses.  Fuel as
in `replaceBrF` keeps the recursion structural. -/
def replaceBracketsF : Nat → List Char → List Char
  | 0, l => l
  | _ + 1, [] => []
  | fuel + 1, c :: rest =>
    if c = '[' then
      match rest with
      | [] => ['[']
      | c2 :: cs =>
        if charDot c2 then
          match splitClose cs with
          | some (inner, after) =>
            '(' :: c2 :: (inner ++ ')' :: replaceBracketsF fuel after)
          | none => '[' :: replaceBracketsF fuel rest
        else '[' :: replaceBracketsF fuel rest
    else c :: replaceBracketsF fuel rest

def replaceBrackets (l : List Char) : List Char := replaceBracketsF l.length l

/-- One global single-character replacement, `s.replace(/c/g, rep)`. -/
def replaceAllChar (c : Char) (rep : List Char) (l : List Char) : List Char :=
  l.flatMap (fun x => if x = c then rep else [x])

/-- Lines 60-62 of the source: the four chained global replacements of `esc`. -/
def escL (l : List Char) : List Char :=
  replaceAllChar '"' "&quot;".data
    (replaceAllChar '>' "&gt;".data
      (replaceAllChar '<' "&lt;".data
        (replaceAllChar '&' "&amp;".data l)))

def esc (s : String) : String := ⟨escL s.data⟩

/-- `interface Participant` (the source field `from` being a Lean keyword, the
message fields are rendered `fromId`/`toId` below). -/
structure Participant where
  id : String
  label : String
  color : String
deriving DecidableEq, Repr

inductive Arrow
  | solid
  | dashed
deriving DecidableEq, Repr

/-- `interface SeqMsg`. -/
structure SeqMsg where
  fromId : String
  toId : String
  text : String
  arrow : Arrow
  step : Nat
  displayStep : Option Nat
deriving DecidableEq, Repr

/-- `interface Diagram`. -/
structure Diagram where
  participants : List Participant
  messages : List SeqMsg
  title : Option String
deriving DecidableEq, Repr

/-- The color palette `PAL` (line 17). -/
def PAL : List String :=
  ["#ef4444", "#f97316", "#eab308", "#22c55e", "#14b8a6", "#06b6d4",
   "#3b82f6", "#8b5cf6", "#ec4899", "#f43f5e", "#84cc16", "#0891b2"]

/-- The parser's accumulated state: participant list, message list, the
message counter `step`, the color index `ci`, and the optional title. -/
structure PState where
  participants : List Participant
  messages : List SeqMsg
  step : Nat
  ci : Nat
  title : Option String
deriving DecidableEq, Repr

def initState : PState := ⟨[], [], 0, 0, none⟩

/-- Lines 28-33: register a participant on first sight.  The source's `Map`
always mirrors the participant list, so its membership test is membership of
the id among the registered ids. -/
def addP (st : PState) (id : String) (label : Option String) : PState :=
  if id ∈ st.participants.map Participant.id then st
  else
    { st with
      participants := st.participants ++
        [{ id := id,
           color := PAL.getD (st.ci % PAL.length) "",
           label := ⟨replaceBrackets (label.getD id).data⟩ }],
      ci := st.ci + 1 }

/-- The typed outcome of the source's per-line pattern tests. -/
inductive LineKind
  | skip
  | titleLine (t : String)
  | decl (id : String) (label : Option String)
  | msg (fromId : String) (tok : String) (toId : String) (text : String)
  | other
deriving DecidableEq, Repr

/-- Lines 34-44: classification of one raw line, in source test order
(trim, skip test, title, participant, message). -/
def classify (raw : String) : LineKind :=
  let l := jsTrim raw.data
  if skipLine l then .skip
  else
    match matchTitle l with
    | some t => .titleLine ⟨t⟩
    | none =>
      match matchParticipant l with
      | some (id, lab) => .decl ⟨id⟩ (lab.map fun s => (⟨s⟩ : String))
      | none =>
        match matchMessage l with
        | some (f, tok, t, txt) => .msg ⟨f⟩ ⟨tok⟩ ⟨t⟩ ⟨txt⟩
        | none => .other

/-- Line 50: `arr.startsWith("--") ? "dashed" : "solid"`. -/
def arrowOf (tok : String) : Arrow :=
  if hasPref "--".data tok.data then .dashed else .solid

/-- Lines 45-53: clean the text, split off an explicit numeric display-step
marker, and append the message with the incremented sequence counter. -/
def pushMsg (st : PState) (fromId toId rawText : String) (arrow : Arrow) : PState :=
  let cleaned := jsTrim (replaceBr rawText.data)
  let m : SeqMsg :=
    match numPfx cleaned with
    | some (n, rest) =>
      { fromId := fromId, toId := toId, text := ⟨jsTrim rest⟩, arrow := arrow,
        step := st.step + 1, displayStep := some n }
    | none =>
      { fromId := fromId, toId := toId, text := ⟨cleaned⟩, arrow := arrow,
        step := st.step + 1, displayStep := none }
  { st with messages := st.messages ++ [m], step := st.step + 1 }

/-- The body of the source's line loop. -/
def processLine (st : PState) (raw : String) : PState :=
  match classify raw with
  | .skip => st
  | .titleLine t => { st with title := some t }
  | .decl id lab => addP st id lab
  | .msg f tok t txt => pushMsg (addP (addP st f none) t none) f t txt (arrowOf tok)
  | .other => st

def PState.toDiagram (st : PState) : Diagram :=
  ⟨st.participants, st.messages, st.title⟩

def parseLines (ls : List String) : Diagram :=
  (ls.foldl processLine initState).toDiagram

/-- `code.split("\n")`: split on every newline, keeping empty segments. -/
def splitLines : List Char → List (List Char)
  | [] => [[]]
  | c :: r =>
    if c = '\n' then [] :: splitLines r
    else
      match splitLines r with
      | h :: t => (c :: h) :: t
      | [] => [[c]]

/-- Lines 22-57: the parser. -/
def parse (code : String) : Diagram :=
  parseLines ((splitLines code.data).map fun c => (⟨c⟩ : String))

/-- `interface Opts` (style options). -/
structure Opts where
  coloredLines : Bool
  coloredNumbers : Bool
  coloredText : Bool
  font : String
  lifelineDash : String
deriving DecidableEq, Repr

def DEFAULT_OPTS : Opts := ⟨true, true, true, "Inter", "circle"⟩

/-- `interface Layout` (slider-driven integer metrics). -/
structure Layout where
  stepHeight : Nat
  boxWidth : Nat
  spacing : Nat
  textSize : Nat
  margin : Nat
deriving DecidableEq, Repr

def DEFAULT_LAYOUT : Layout := ⟨42, 141, 250, 13, 50⟩

def DEFAULT_DIAGRAM_TITLE : String := "Sequence Diagram"

/-- One entry of `LIFELINE_DASH` (lines 64-69). -/
structure DashSpec where
  da : String
  cap : Option String
  sw : Option ℚ
deriving DecidableEq, Repr

/-- The `LIFELINE_DASH` lookup with the `?? LIFELINE_DASH.circle` fallback of
line 91. -/
def LIFELINE_DASH (k : String) : DashSpec :=
  if k = "circle" then ⟨"0 8", some "round", some 3⟩
  else if k = "dot" then ⟨"2 5", none, none⟩
  else if k = "small" then ⟨"7 5", none, none⟩
  else if k = "long" then ⟨"14 6", none, none⟩
  else ⟨"0 8", some "round", some 3⟩

/-- Digits of the fractional part of a nonnegative rational, most significant
first (empty when the expansion has terminated).  Every coordinate the
renderer builds has denominator `2^a * 5^b`, so the expansion terminates well
within the fuel. -/
def fracDigits : ℚ → Nat → List Char
  | _, 0 => []
  | q, fuel + 1 =>
    if q = 0 then []
    else
      let q10 := q * 10
      let d := (⌊q10⌋).toNat
      Char.ofNat (48 + d) :: fracDigits (q10 - d) fuel

/-- Exact decimal rendering of a JS number: sign, integer part, and the
fractional digits when nonzero.  Agrees with JS number-to-string conversion
on every value whose floating-point representation is exact — all integers
and half-integers, which are the only values the claims inspect. -/
def numStr (q : ℚ) : String :=
  let a := |q|
  let ip := (⌊a⌋).toNat
  let ds := fracDigits (a - ip) 40
  (if q < 0 then "-" else "") ++ toString ip ++
    (if ds.isEmpty then "" else "." ++ (⟨ds⟩ : String))

/-- Layout constants of `buildSvg` (lines 76-82, 86). -/
def TITLE_H : Nat := 38

def TP : Nat := 66

def BOT_PAD : Nat := TP

def VP : Nat := 44

def BR : Nat := 6

def AH : ℚ := 8

def SW : ℚ := 50

def SH : ℚ := 36

/-- Line 76: `Math.max(28, Math.round(BW * 0.31))`, with round-half-up on the
nonnegative integer slider value written in natural division. -/
def boxH (bw : Nat) : Nat := max 28 ((bw * 31 + 50) / 100)

/-- Line 85: `W = 2 * LP + (N - 1) * HS + BW`. -/
def canvasW (d : Diagram) (l : Layout) : Nat :=
  2 * l.margin + (d.participants.length - 1) * l.spacing + l.boxWidth

/-- Line 87: `H = TITLE_H + TP + BH + VP + ms.length * MG + VP + BH + BOT_PAD`. -/
def canvasH (d : Diagram) (l : Layout) : Nat :=
  TITLE_H + TP + boxH l.boxWidth + VP + d.messages.length * l.stepHeight + VP +
    boxH l.boxWidth + BOT_PAD

/-- Line 83: the x-center of column `i`. -/
def cxQ (l : Layout) (i : Nat) : ℚ :=
  (l.margin : ℚ) + (l.boxWidth : ℚ) / 2 + (i : ℚ) * (l.spacing : ℚ)

/-- Line 89: the row y-coordinate of the message with sequence index `s`. -/
def msgY (l : Layout) (s : Nat) : ℚ :=
  (TITLE_H : ℚ) + (TP : ℚ) + (boxH l.boxWidth : ℚ) + (VP : ℚ) +
    ((s : ℚ) - 1) * (l.stepHeight : ℚ)

/-- Line 84 with the `?? 0` of line 107: the column index of a participant id.
The source's `Map` keeps the last binding for a duplicated id, which the
overwriting fold mirrors. -/
def idxOf (ps : List Participant) (id : String) : Nat :=
  (ps.enum.foldl (fun acc x => if x.2.id = id then some x.1 else acc) none).getD 0

/-- Line 90: the CSS font-family string (note: built from the raw font name). -/
def fontFam (o : Opts) : String := "\x27" ++ o.font ++ "\x27, sans-serif"

/-- Line 148 vs 152: the numeral shown inside a step marker. -/
def displayNum (m : SeqMsg) : Nat := m.displayStep.getD m.step

/-- Lines 146-153: the step-marker parts appended after each message's
geometry.  With the `coloredNumbers` toggle on, a filled circle and numeral
at the source lifeline x and a second pair at the fixed left-margin x `22`;
with it off, a single plain numeral at the source lifeline only. -/
def markersOf (o : Opts) (fp : Participant) (f : String) (fx y : ℚ)
    (num : String) : List String :=
  if o.coloredNumbers then
    ["<circle cx=\"" ++ numStr fx ++ "\" cy=\"" ++ numStr y ++ "\" r=\"10\" fill=\"" ++
       fp.color ++ "\"/>",
     "<text x=\"" ++ numStr fx ++ "\" y=\"" ++ numStr (y + 1) ++
       "\" text-anchor=\"middle\" dominant-baseline=\"middle\" font-family=\"" ++ f ++
       "\" font-size=\"11\" font-weight=\"700\" fill=\"#000000\">" ++ num ++ "</text>",
     "<circle cx=\"22\" cy=\"" ++ numStr y ++ "\" r=\"10\" fill=\"" ++ fp.color ++ "\"/>",
     "<text x=\"22\" y=\"" ++ numStr (y + 1) ++
       "\" text-anchor=\"middle\" dominant-baseline=\"middle\" font-family=\"" ++ f ++
       "\" font-size=\"11\" font-weight=\"700\" fill=\"#000000\">" ++ num ++ "</text>"]
  else
    ["<text x=\"" ++ numStr fx ++ "\" y=\"" ++ numStr (y + 1) ++
       "\" text-anchor=\"middle\" dominant-baseline=\"middle\" font-family=\"" ++ f ++
       "\" font-size=\"13\" font-weight=\"700\" fill=\"#000000\">" ++ num ++ "</text>"]

/-- Lines 106-153 for one message, with the displayed numeral abstracted as
the final argument (the source computes `msg.displayStep ?? msg.step`
inline); nothing here reads `displayStep`. -/
def msgPartsAux (o : Opts) (l : Layout) (ps : List Participant) (m : SeqMsg)
    (num : String) : List String :=
  let FS := l.textSize
  let f := fontFam o
  let fi := idxOf ps m.fromId
  let ti := idxOf ps m.toId
  let y : ℚ := msgY l m.step
  let fx := cxQ l fi
  let tx := cxQ l ti
  let fp := ps.getD fi ⟨"", "", ""⟩
  let lc := if o.coloredLines then fp.color else "#374151"
  let tc := if o.coloredText then fp.color else "#1e293b"
  let main :=
    if fi = ti then
      let da := if m.arrow = .dashed then " stroke-dasharray=\"12 5\"" else ""
      let path := "<path d=\"M" ++ numStr fx ++ " " ++ numStr y ++ " H" ++
        numStr (fx + SW) ++ " V" ++ numStr (y + SH) ++ " H" ++ numStr fx ++
        "\" fill=\"none\" stroke=\"" ++ lc ++ "\" stroke-width=\"1.5\"" ++ da ++ "/>"
      let poly := "<polygon points=\"" ++ numStr fx ++ "," ++ numStr (y + SH) ++ " " ++
        numStr (fx + AH) ++ "," ++ numStr (y + SH - 5) ++ " " ++ numStr (fx + AH) ++
        "," ++ numStr (y + SH + 5) ++ "\" fill=\"" ++ lc ++ "\"/>"
      if o.coloredText then
        let pillH : ℚ := (FS : ℚ) + 8
        let pillW : ℚ := max 40 ((m.text.length : ℚ) * ((FS : ℚ) * 62 / 100) + 12)
        let pillX := fx + SW + 5
        let pillY := y + SH / 2 - pillH / 2
        [path, poly,
         "<rect x=\"" ++ numStr pillX ++ "\" y=\"" ++ numStr pillY ++ "\" width=\"" ++
           numStr pillW ++ "\" height=\"" ++ numStr pillH ++ "\" rx=\"" ++
           numStr (pillH / 2) ++ "\" fill=\"" ++ fp.color ++ "\"/>",
         "<text x=\"" ++ numStr (pillX + pillW / 2) ++ "\" y=\"" ++
           numStr (pillY + pillH / 2 + 1) ++
           "\" text-anchor=\"middle\" dominant-baseline=\"middle\" font-family=\"" ++ f ++
           "\" font-size=\"" ++ toString FS ++ "\" font-weight=\"600\" fill=\"#000000\">" ++
           esc m.text ++ "</text>"]
      else
        [path, poly,
         "<text x=\"" ++ numStr (fx + SW + 5) ++ "\" y=\"" ++ numStr (y + SH / 2 + 1) ++
           "\" dominant-baseline=\"middle\" font-family=\"" ++ f ++ "\" font-size=\"" ++
           toString FS ++ "\" fill=\"" ++ tc ++ "\">" ++ esc m.text ++ "</text>"]
    else
      let dir : ℚ := if tx > fx then 1 else -1
      let da := if m.arrow = .dashed then " stroke-dasharray=\"12 5\"" else ""
      let line := "<line x1=\"" ++ numStr fx ++ "\" y1=\"" ++ numStr y ++ "\" x2=\"" ++
        numStr (tx - dir * AH) ++ "\" y2=\"" ++ numStr y ++ "\" stroke=\"" ++ lc ++
        "\" stroke-width=\"1.5\"" ++ da ++ "/>"
      let head :=
        if m.arrow = .solid then
          if dir = 1 then
            "<polygon points=\"" ++ numStr tx ++ "," ++ numStr y ++ " " ++
              numStr (tx - AH) ++ "," ++ numStr (y - 5) ++ " " ++ numStr (tx - AH) ++
              "," ++ numStr (y + 5) ++ "\" fill=\"" ++ lc ++ "\"/>"
          else
            "<polygon points=\"" ++ numStr tx ++ "," ++ numStr y ++ " " ++
              numStr (tx + AH) ++ "," ++ numStr (y - 5) ++ " " ++ numStr (tx + AH) ++
              "," ++ numStr (y + 5) ++ "\" fill=\"" ++ lc ++ "\"/>"
        else
          if dir = 1 then
            "<polyline points=\"" ++ numStr (tx - AH) ++ "," ++ numStr (y - 5) ++ " " ++
              numStr tx ++ "," ++ numStr y ++ " " ++ numStr (tx - AH) ++ "," ++
              numStr (y + 5) ++ "\" fill=\"none\" stroke=\"" ++ lc ++
              "\" stroke-width=\"1.5\"/>"
          else
            "<polyline points=\"" ++ numStr (tx + AH) ++ "," ++ numStr (y - 5) ++ " " ++
              numStr tx ++ "," ++ numStr y ++ " " ++ numStr (tx + AH) ++ "," ++
              numStr (y + 5) ++ "\" fill=\"none\" stroke=\"" ++ lc ++
              "\" stroke-width=\"1.5\"/>"
      let mid := (fx + tx) / 2
      if o.coloredText then
        let pillH : ℚ := (FS : ℚ) + 8
        let pillW : ℚ := max 40 ((m.text.length : ℚ) * ((FS : ℚ) * 62 / 100) + 12)
        let pillY := y - pillH - 10
        [line, head,
         "<rect x=\"" ++ numStr (mid - pillW / 2) ++ "\" y=\"" ++ numStr pillY ++
           "\" width=\"" ++ numStr pillW ++ "\" height=\"" ++ numStr pillH ++
           "\" rx=\"" ++ numStr (pillH / 2) ++ "\" fill=\"" ++ fp.color ++ "\"/>",
         "<text x=\"" ++ numStr mid ++ "\" y=\"" ++ numStr (pillY + pillH / 2 + 1) ++
           "\" text-anchor=\"middle\" dominant-baseline=\"middle\" font-family=\"" ++ f ++
           "\" font-size=\"" ++ toString FS ++ "\" font-weight=\"600\" fill=\"#000000\">" ++
           esc m.text ++ "</text>"]
      else
        [line, head,
         "<text x=\"" ++ numStr mid ++ "\" y=\"" ++ numStr (y - 8) ++
           "\" text-anchor=\"middle\" font-family=\"" ++ f ++ "\" font-size=\"" ++
           toString FS ++ "\" fill=\"" ++ tc ++ "\">" ++ esc m.text ++ "</text>"]
  main ++ markersOf o fp f fx y num

/-- The parts pushed for one message. -/
def msgParts (o : Opts) (l : Layout) (ps : List Participant) (m : SeqMsg) :
    List String :=
  msgPartsAux o l ps m (toString (displayNum m))

/-- Lines 101-104 and 155-158: the box-and-label pair for one participant
column at vertical position `y`. -/
def boxPair (o : Opts) (l : Layout) (y : Nat) (i : Nat) (p : Participant) :
    List String :=
  let BW := l.boxWidth
  let BH := boxH BW
  ["<rect x=\"" ++ numStr (cxQ l i - (BW : ℚ) / 2) ++ "\" y=\"" ++ toString y ++
     "\" width=\"" ++ toString BW ++ "\" height=\"" ++ toString BH ++ "\" rx=\"" ++
     toString BR ++ "\" fill=\"" ++ p.color ++ "\" stroke=\"#000000\" stroke-width=\"2\"/>",
   "<text x=\"" ++ numStr (cxQ l i) ++ "\" y=\"" ++
     numStr ((y : ℚ) + (BH : ℚ) / 2 + 1) ++
     "\" text-anchor=\"middle\" dominant-baseline=\"middle\" font-family=\"" ++
     fontFam o ++ "\" font-size=\"" ++ toString l.textSize ++
     "\" font-weight=\"700\" fill=\"white\">" ++ esc p.label ++ "</text>"]

/-- The `parts` array of `buildSvg` (lines 94-159), in push order: background,
title, lifelines, top boxes, message groups, bottom boxes. -/
def svgParts (d : Diagram) (o : Opts) (l : Layout) : List String :=
  let ps := d.participants
  let BH := boxH l.boxWidth
  let W := canvasW d l
  let H := canvasH d l
  let lt := TITLE_H + TP + BH
  let lb := H - BOT_PAD - BH
  let f := fontFam o
  let ld := LIFELINE_DASH o.lifelineDash
  let lifelineSW : ℚ := ld.sw.getD (3 / 2)
  let capAttr :=
    match ld.cap with
    | some cap => " stroke-linecap=\"" ++ cap ++ "\""
    | none => ""
  let diagramTitle := d.title.getD DEFAULT_DIAGRAM_TITLE
  ["<rect width=\"" ++ toString W ++ "\" height=\"" ++ toString H ++ "\" fill=\"white\"/>",
   "<text x=\"" ++ numStr ((W : ℚ) / 2) ++ "\" y=\"" ++
     numStr ((TITLE_H : ℚ) / 2 + 6) ++
     "\" text-anchor=\"middle\" dominant-baseline=\"middle\" font-family=\"" ++ f ++
     "\" font-size=\"15\" font-weight=\"700\" fill=\"#1e293b\">" ++ esc diagramTitle ++
     "</text>"]
  ++ ps.enum.map (fun x =>
      let c := if o.coloredLines then x.2.color ++ "60" else "#d1d5db"
      "<line x1=\"" ++ numStr (cxQ l x.1) ++ "\" y1=\"" ++ toString lt ++ "\" x2=\"" ++
        numStr (cxQ l x.1) ++ "\" y2=\"" ++ toString lb ++ "\" stroke=\"" ++ c ++
        "\" stroke-width=\"" ++ numStr lifelineSW ++ "\" stroke-dasharray=\"" ++
        ld.da ++ "\"" ++ capAttr ++ "/>")
  ++ ps.enum.flatMap (fun x => boxPair o l (TITLE_H + TP) x.1 x.2)
  ++ d.messages.flatMap (msgParts o l ps)
  ++ ps.enum.flatMap (fun x => boxPair o l (H - BOT_PAD - BH) x.1 x.2)

/-- The enclosing `<svg>` element of line 160. -/
def svgOpen (w h : Nat) : String :=
  "<svg xmlns=\"http://www.w3.org/2000/svg\" width=\"" ++ toString w ++
    "\" height=\"" ++ toString h ++ "\" viewBox=\"0 0 " ++ toString w ++ " " ++
    toString h ++ "\">"

/-- Lines 71-161: the renderer, with the zero-participant early exit. -/
def buildSvg (d : Diagram) (o : Opts) (l : Layout) : String :=
  if d.participants.isEmpty then ""
  else svgOpen (canvasW d l) (canvasH d l) ++ String.join (svgParts d o l) ++ "</svg>"

/-! ### Supporting lemmas -/

theorem svgOpen_length_pos (w h : Nat) : 0 < (svgOpen w h).length := by
  have h1 : ("<svg xmlns=\"http://www.w3.org/2000/svg\" width=\"" : String).length = 47 :=
    rfl
  simp only [svgOpen, String.length_append]
  omega

theorem skip_processLine (st : PState) (raw : String)
    (h : skipLine (jsTrim raw.data)) : processLine st raw = st := by
  simp [processLine, classify, h]

theorem skip_foldl (ls : List (List Char)) (st : PState)
    (h : ∀ x ∈ ls, skipLine (jsTrim x)) :
    (ls.map fun c => (⟨c⟩ : String)).foldl processLine st = st := by
  induction ls generalizing st with
  | nil => rfl
  | cons a t ih =>
    rw [List.map_cons, List.foldl_cons, skip_processLine st ⟨a⟩ (h a (by simp))]
    exact ih st fun x hx => h x (by simp [hx])

theorem addP_messages_step (st : PState) (id : String) (lab : Option String) :
    (addP st id lab).messages = st.messages ∧ (addP st id lab).step = st.step := by
  unfold addP
  split <;> simp

theorem pushMsg_shape (st : PState) (f t rt : String) (a : Arrow) :
    ∃ m : SeqMsg, m.step = st.step + 1 ∧
      (pushMsg st f t rt a).messages = st.messages ++ [m] ∧
      (pushMsg st f t rt a).step = st.step + 1 ∧
      (pushMsg st f t rt a).participants = st.participants := by
  dsimp only [pushMsg]
  split <;> exact ⟨_, rfl, rfl, rfl, rfl⟩

theorem processLine_steps (st : PState) (raw : String)
    (h1 : st.messages.map SeqMsg.step = List.range' 1 st.messages.length)
    (h2 : st.step = st.messages.length) :
    (processLine st raw).messages.map SeqMsg.step =
      List.range' 1 (processLine st raw).messages.length ∧
    (processLine st raw).step = (processLine st raw).messages.length := by
  unfold processLine
  cases classify raw with
  | skip => exact ⟨h1, h2⟩
  | titleLine t => exact ⟨h1, h2⟩
  | other => exact ⟨h1, h2⟩
  | decl id lab =>
    obtain ⟨hm, hs⟩ := addP_messages_step st id lab
    rw [hm, hs]
    exact ⟨h1, h2⟩
  | msg f tok t txt =>
    obtain ⟨hm1, hs1⟩ := addP_messages_step st f none
    obtain ⟨hm2, hs2⟩ := addP_messages_step (addP st f none) t none
    obtain ⟨m, hstep, hmsgs, hst, _⟩ :=
      pushMsg_shape (addP (addP st f none) t none) f t txt (arrowOf tok)
    rw [hmsgs, hst, hm2, hm1, hs2, hs1, h2]
    constructor
    · rw [List.map_append, h1, List.length_append]
      simp only [List.map_cons, List.map_nil, hstep, hs2, hs1, h2, List.length_cons,
        List.length_nil, Nat.zero_add]
      rw [List.range'_1_concat]
      simp [Nat.add_comm]
    · simp

theorem foldl_steps (ls : List String) (st : PState)
    (h1 : st.messages.map SeqMsg.step = List.range' 1 st.messages.length)
    (h2 : st.step = st.messages.length) :
    (ls.foldl processLine st).messages.map SeqMsg.step =
      List.range' 1 (ls.foldl processLine st).messages.length := by
  induction ls generalizing st with
  | nil => exact h1
  | cons a tl ih =>
    rw [List.foldl_cons]
    obtain ⟨g1, g2⟩ := processLine_steps st a h1 h2
    exact ih _ g1 g2

/-- The participant ids a single line contributes, in registration order. -/
def occsLine (raw : String) : List String :=
  match classify raw with
  | .decl id _ => [id]
  | .msg f _ t _ => [f, t]
  | _ => []

/-- Register each id in turn, keeping the first occurrence only. -/
def dedupAppend (acc : List String) (xs : List String) : List String :=
  xs.foldl (fun a x => if x ∈ a then a else a ++ [x]) acc

/-- The distinct ids of a list in order of first occurrence. -/
def firstSeen (xs : List String) : List String := dedupAppend [] xs

theorem addP_ids (st : PState) (id : String) (lab : Option String) :
    (addP st id lab).participants.map Participant.id =
      if id ∈ st.participants.map Participant.id
      then st.participants.map Participant.id
      else st.participants.map Participant.id ++ [id] := by
  unfold addP
  split <;> simp_all

theorem processLine_ids (st : PState) (raw : String) :
    (processLine st raw).participants.map Participant.id =
      dedupAppend (st.participants.map Participant.id) (occsLine raw) := by
  unfold processLine occsLine
  cases classify raw with
  | skip => simp [dedupAppend]
  | titleLine t => simp [dedupAppend]
  | other => simp [dedupAppend]
  | decl id lab => simp [dedupAppend, addP_ids]
  | msg f tok t txt =>
    obtain ⟨m, _, _, _, hp⟩ :=
      pushMsg_shape (addP (addP st f none) t none) f t txt (arrowOf tok)
    rw [hp]
    simp only [dedupAppend, List.foldl_cons, List.foldl_nil]
    rw [addP_ids, addP_ids]

theorem foldl_ids (ls : List String) (st : PState) :
    (ls.foldl processLine st).participants.map Participant.id =
      dedupAppend (st.participants.map Participant.id) (ls.flatMap occsLine) := by
  induction ls generalizing st with
  | nil => simp [dedupAppend]
  | cons a tl ih =>
    rw [List.foldl_cons, ih, processLine_ids, List.flatMap_cons]
    simp only [dedupAppend, List.foldl_append]

theorem mem_dedupAppend (acc xs : List String) (x : String) :
    x ∈ dedupAppend acc xs ↔ x ∈ acc ∨ x ∈ xs := by
  induction xs generalizing acc with
  | nil => simp [dedupAppend]
  | cons a tl ih =>
    simp only [dedupAppend, List.foldl_cons] at *
    rw [ih]
    split_ifs with hmem
    · simp only [List.mem_cons]
      constructor
      · rintro (h | h)
        · exact Or.inl h
        · exact Or.inr (Or.inr h)
      · rintro (h | h | h)
        · exact Or.inl h
        · subst h; exact Or.inl hmem
        · exact Or.inr h
    · simp only [List.mem_append, List.mem_singleton, List.mem_cons]
      tauto

theorem nodup_dedupAppend (acc xs : List String) (h : acc.Nodup) :
    (dedupAppend acc xs).Nodup := by
  induction xs generalizing acc with
  | nil => exact h
  | cons a tl ih =>
    simp only [dedupAppend, List.foldl_cons] at *
    split <;> rename_i hmem
    · exact ih _ h
    · exact ih _ (by simp [List.nodup_append, h, hmem])

/-! ### Claim theorems -/

/-- C6: parsing and rendering are deterministic pure functions: in this
shallow embedding `parse` and `buildSvg` are Lean functions of their
arguments alone (the source has no ambient mutable state or I/O), so
identical inputs give definitionally identical outputs. -/
theorem parse_render_deterministic (code : String) (d : Diagram) (o : Opts)
    (l : Layout) :
    parse code = parse code ∧ buildSvg d o l = buildSvg d o l :=
  ⟨rfl, rfl⟩

/-- C4: a diagram with zero participants renders to the empty string for
every style and layout configuration — in particular the diagram parsed from
input all of whose lines are blank, comments, or skipped directives — while a
diagram with at least one participant renders to a non-empty markup string. -/
theorem empty_markup_iff_no_participants (d : Diagram) (o : Opts) (l : Layout)
    (code : String) :
    (d.participants = [] → buildSvg d o l = "") ∧
    (d.participants ≠ [] → buildSvg d o l ≠ "") ∧
    ((∀ x ∈ splitLines code.data, skipLine (jsTrim x)) →
      (parse code).participants = [] ∧ buildSvg (parse code) o l = "") := by
  refine ⟨fun h => by simp [buildSvg, h], fun h hc => ?_, fun h => ?_⟩
  · rw [buildSvg, if_neg (by simpa [List.isEmpty_iff] using h)] at hc
    have hl := congrArg String.length hc
    rw [String.length_append, String.length_append] at hl
    have := svgOpen_length_pos (canvasW d l) (canvasH d l)
    simp at hl
    omega
  · have hp : (parse code).participants = [] := by
      unfold parse parseLines
      rw [skip_foldl _ _ h]
      rfl
    exact ⟨hp, by simp [buildSvg, hp]⟩

/-- C5: for every non-empty diagram the produced markup is the canvas
element whose width attribute is `2*margin + (N-1)*columnSpacing + boxWidth`
and whose height attribute is `titleBand + topPad + boxHeight + vertPad +
M*rowHeight + vertPad + boxHeight + botPad`, enclosing the rendered parts. -/
theorem canvas_dimensions (d : Diagram) (o : Opts) (l : Layout)
    (h : d.participants ≠ []) :
    buildSvg d o l =
      svgOpen (2 * l.margin + (d.participants.length - 1) * l.spacing + l.boxWidth)
        (38 + 66 + boxH l.boxWidth + 44 + d.messages.length * l.stepHeight + 44 +
          boxH l.boxWidth + 66) ++
      String.join (svgParts d o l) ++ "</svg>" := by
  rw [buildSvg, if_neg (by simpa [List.isEmpty_iff] using h)]
  rfl

/-- Witness for C5 at a concrete parsed diagram and the default options. -/
theorem canvas_dimensions_witness :
    buildSvg (parse "A->B: hi") DEFAULT_OPTS DEFAULT_LAYOUT =
      svgOpen (2 * 50 + ((parse "A->B: hi").participants.length - 1) * 250 + 141)
        (38 + 66 + boxH 141 + 44 + (parse "A->B: hi").messages.length * 42 + 44 +
          boxH 141 + 66) ++
      String.join (svgParts (parse "A->B: hi") DEFAULT_OPTS DEFAULT_LAYOUT) ++
      "</svg>" :=
  canvas_dimensions (parse "A->B: hi") DEFAULT_OPTS DEFAULT_LAYOUT (by decide)

/-- Witness for C4: the empty-input and one-participant cases at concrete
inputs. -/
theorem empty_markup_iff_no_participants_witness :
    buildSvg (parse "%% note\n   \n```") DEFAULT_OPTS DEFAULT_LAYOUT = "" ∧
    buildSvg (parse "A->B: hi") DEFAULT_OPTS DEFAULT_LAYOUT ≠ "" := by
  refine ⟨?_, ?_⟩
  · exact ((empty_markup_iff_no_participants (parse "%% note\n   \n```")
      DEFAULT_OPTS DEFAULT_LAYOUT "%% note\n   \n```").2.2 (by decide)).2
  · exact (empty_markup_iff_no_participants (parse "A->B: hi") DEFAULT_OPTS
      DEFAULT_LAYOUT "A->B: hi").2.1 (by decide)

/-- C2: for every input text the sequence indices of the parsed messages are
exactly `1..N` in source order — the k-th recognized message line gets index
k — so they are dense and strictly increasing, and in particular independent
of the presence or value of any explicit display-step marker in the text. -/
theorem sequence_indices_dense (code : String) :
    (parse code).messages.map SeqMsg.step =
      List.range' 1 (parse code).messages.length := by
  unfold parse parseLines
  exact foldl_steps _ initState rfl rfl

/-- C3: the participant ids of every parsed diagram are exactly the ids
contributed by declaration lines and message endpoints (in that per-line
order), deduplicated to the first occurrence: the list is duplicate-free,
in first-seen order, and as a set is the union of declared ids and message
endpoint ids. -/
theorem participants_first_seen (code : String) :
    (parse code).participants.map Participant.id =
      firstSeen (((splitLines code.data).map fun c => (⟨c⟩ : String)).flatMap
        occsLine) ∧
    ((parse code).participants.map Participant.id).Nodup ∧
    (∀ x, x ∈ (parse code).participants.map Participant.id ↔
      x ∈ ((splitLines code.data).map fun c => (⟨c⟩ : String)).flatMap occsLine) := by
  have hmain : (parse code).participants.map Participant.id =
      firstSeen (((splitLines code.data).map fun c => (⟨c⟩ : String)).flatMap
        occsLine) := by
    unfold parse parseLines firstSeen
    exact foldl_ids _ initState
  refine ⟨hmain, ?_, ?_⟩
  · rw [hmain]
    exact nodup_dedupAppend _ _ List.nodup_nil
  · intro x
    rw [hmain]
    unfold firstSeen
    rw [mem_dedupAppend]
    simp

/-- The per-character effect of the four chained replacements of `esc`. -/
def escChar (c : Char) : List Char :=
  if c = '&' then ['&', 'a', 'm', 'p', ';']
  else if c = '<' then ['&', 'l', 't', ';']
  else if c = '>' then ['&', 'g', 't', ';']
  else if c = '"' then ['&', 'q', 'u', 'o', 't', ';']
  else [c]

theorem replaceAllChar_cons (c : Char) (rep : List Char) (x : Char) (l : List Char) :
    replaceAllChar c rep (x :: l) =
      (if x = c then rep else [x]) ++ replaceAllChar c rep l := by
  simp [replaceAllChar]

theorem replaceAllChar_append (c : Char) (rep : List Char) (a b : List Char) :
    replaceAllChar c rep (a ++ b) =
      replaceAllChar c rep a ++ replaceAllChar c rep b := by
  simp [replaceAllChar]

theorem escL_cons (x : Char) (l : List Char) :
    escL (x :: l) = escChar x ++ escL l := by
  unfold escL
  rw [replaceAllChar_cons '&', replaceAllChar_append, replaceAllChar_append,
    replaceAllChar_append]
  congr 1
  by_cases h1 : x = '&'
  · subst h1; decide
  rw [if_neg h1]
  by_cases h2 : x = '<'
  · subst h2; decide
  by_cases h3 : x = '>'
  · subst h3; decide
  by_cases h4 : x = '"'
  · subst h4; decide
  · simp [replaceAllChar, escChar, h1, h2, h3, h4]

theorem escL_flatMap (l : List Char) : escL l = l.flatMap escChar := by
  induction l with
  | nil => rfl
  | cons x t ih => rw [escL_cons, List.flatMap_cons, ih]

/-- Well-formedness of escaped text: no raw `<`, `>` or `"` anywhere, and
every `&` begins one of the four entities the escaper introduces. -/
def escapedOk : List Char → Bool
  | [] => true
  | c :: rest =>
    if c = '&' then
      if hasPref ['a', 'm', 'p', ';'] rest then escapedOk (rest.drop 4)
      else if hasPref ['l', 't', ';'] rest then escapedOk (rest.drop 3)
      else if hasPref ['g', 't', ';'] rest then escapedOk (rest.drop 3)
      else if hasPref ['q', 'u', 'o', 't', ';'] rest then escapedOk (rest.drop 5)
      else false
    else if c = '<' ∨ c = '>' ∨ c = '"' then false
    else escapedOk rest
termination_by l => l.length
decreasing_by
  all_goals simp only [List.length_cons, List.length_drop]
  all_goals omega

theorem escapedOk_escChar (c : Char) (rest : List Char) :
    escapedOk (escChar c ++ rest) = escapedOk rest := by
  by_cases h1 : c = '&'
  · subst h1
    simp [escChar, escapedOk, hasPref]
  by_cases h2 : c = '<'
  · subst h2
    simp [escChar, escapedOk, hasPref]
  by_cases h3 : c = '>'
  · subst h3
    simp [escChar, escapedOk, hasPref]
  by_cases h4 : c = '"'
  · subst h4
    simp [escChar, escapedOk, hasPref]
  · simp [escChar, escapedOk, hasPref, h1, h2, h3, h4]

theorem escapedOk_escL (l : List Char) (rest : List Char) :
    escapedOk (escL l ++ rest) = escapedOk rest := by
  induction l with
  | nil => rfl
  | cons x t ih => rw [escL_cons, List.append_assoc, escapedOk_escChar, ih]

/-- C9: the escaping the renderer applies to every user string it inserts —
the diagram title, each participant label, and each message text — replaces
`&`, `<`, `>`, `"` by their entities, so its output never contains a raw
`<`, `>` or `"` and every `&` in it begins one of the four entities. -/
theorem esc_output_escaped (s : String) :
    escapedOk (esc s).data = true ∧
    (∀ c ∈ (esc s).data, c ≠ '<' ∧ c ≠ '>' ∧ c ≠ '"') ∧
    esc "&" = "&amp;" ∧ esc "<" = "&lt;" ∧ esc ">" = "&gt;" ∧
    esc "\"" = "&quot;" := by
  refine ⟨?_, ?_, rfl, rfl, rfl, rfl⟩
  · show escapedOk (escL s.data) = true
    have h := escapedOk_escL s.data []
    rw [List.append_nil] at h
    rw [h]
    simp [escapedOk]
  · intro c hc
    simp only [esc] at hc
    rw [escL_flatMap] at hc
    obtain ⟨x, _, hx⟩ := List.mem_flatMap.mp hc
    unfold escChar at hx
    refine ⟨?_, ?_, ?_⟩ <;> rintro rfl <;> split_ifs at hx <;>
      first
        | exact absurd hx (by decide)
        | (simp only [List.mem_singleton] at hx
           exact absurd hx.symm (by assumption))

theorem matchTok_mem {l tok rest : List Char}
    (h : matchTok l = some (tok, rest)) :
    tok = "-->>".data ∨ tok = "->>".data ∨ tok = "-->".data ∨ tok = "->".data := by
  unfold matchTok at h
  split_ifs at h <;> simp_all

theorem matchMessage_tok {l f tok t txt : List Char}
    (h : matchMessage l = some (f, tok, t, txt)) :
    tok = "-->>".data ∨ tok = "->>".data ∨ tok = "-->".data ∨ tok = "->".data := by
  unfold matchMessage at h
  dsimp only at h
  split at h
  · exact absurd h (by simp)
  split at h
  · exact absurd h (by simp)
  rename_i tok' r2 heq
  split at h
  · exact absurd h (by simp)
  split at h
  case _ r4 =>
    split at h
    · simp only [Option.some.injEq, Prod.mk.injEq] at h
      obtain ⟨h1, h2, h3, h4⟩ := h
      subst h2
      exact matchTok_mem heq
    · exact absurd h (by simp)
  case _ =>
    exact absurd h (by simp)

/-- C7: a recognized message line's arrow token is one of the four literals;
the assigned arrow style is `dashed` exactly when the token has the
double-dash form; the model treats single- and double-head tokens of the same
dash kind identically (the message branch consumes the token only through
`arrowOf`, which identifies `->` with `->>` and `-->` with `-->>`); and
`A-->>B: 3. Done` parses to one dashed message `Done` with sequence index 1
and display step 3. -/
theorem arrow_style_from_token :
    (∀ l f tok t txt, matchMessage l = some (f, tok, t, txt) →
      (tok = "-->>".data ∨ tok = "->>".data ∨ tok = "-->".data ∨ tok = "->".data) ∧
      (arrowOf ⟨tok⟩ = Arrow.dashed ↔ hasPref "--".data tok)) ∧
    (arrowOf "->>" = arrowOf "->" ∧ arrowOf "-->>" = arrowOf "-->") ∧
    (∀ st raw f tok t txt, classify raw = .msg f tok t txt →
      processLine st raw =
        pushMsg (addP (addP st f none) t none) f t txt (arrowOf tok)) ∧
    parse "A-->>B: 3. Done" =
      ⟨[⟨"A", "A", "#ef4444"⟩, ⟨"B", "B", "#f97316"⟩],
       [⟨"A", "B", "Done", Arrow.dashed, 1, some 3⟩], none⟩ := by
  refine ⟨?_, ⟨rfl, rfl⟩, ?_, by decide⟩
  · intro l f tok t txt h
    refine ⟨matchMessage_tok h, ?_⟩
    rcases matchMessage_tok h with h4 | h4 | h4 | h4 <;> subst h4 <;> decide
  · intro st raw f tok t txt h
    unfold processLine
    rw [h]

/-- Witness for C7's conditional clauses at a concrete message line. -/
theorem arrow_style_from_token_witness :
    ((matchMessage "A-->B: x".data).map fun r => r.2.1) = some "-->".data ∧
    (arrowOf "-->" = Arrow.dashed ↔ hasPref "--".data "-->".data) ∧
    processLine initState "A->>B: x" =
      pushMsg (addP (addP initState "A" none) "B" none) "A" "B" "x"
        (arrowOf "->>") := by
  refine ⟨by decide, ?_, ?_⟩
  · exact (arrow_style_from_token.1 "A-->B: x".data "A".data "-->".data "B".data
      "x".data (by decide)).2
  · exact arrow_style_from_token.2.2.1 initState "A->>B: x" "A" "->>" "B" "x"
      (by decide)

/-- C8: a message row's y-coordinate is a pure function of its sequence index
and the layout metrics (`msgY` reads nothing else), and the part builder is
blind to the display step: it reads the message's other fields and a numeral
string, the numeral being the display step when present, else the sequence
index.  Changing the display step therefore changes only the numeral text,
never a coordinate. -/
theorem display_step_frame (o : Opts) (l : Layout) (ps : List Participant)
    (m : SeqMsg) (v : Option Nat) (num : String) (k : Nat) :
    msgPartsAux o l ps { m with displayStep := v } num =
      msgPartsAux o l ps m num ∧
    msgParts o l ps m = msgPartsAux o l ps m (toString (displayNum m)) ∧
    msgParts o l ps { m with displayStep := some k } =
      msgPartsAux o l ps m (toString k) ∧
    displayNum { m with displayStep := some k } = k := by
  cases m
  exact ⟨rfl, rfl, rfl, rfl⟩

/-- Substring occurrence test used to inspect concrete markup. -/
def hasSub (p : List Char) : List Char → Bool
  | [] => hasPref p []
  | c :: r => hasPref p (c :: r) || hasSub p r

/-- C1 counterexample: with the step-number-coloring toggle off, the markup
rendered for `A->B: hi` contains no attribute value `22` at all — there is no
marker at the fixed left-margin x `22` — and exactly one numeral element, not
two; the claim's "drawn twice … regardless of whether the toggle is on or
off" fails on the off setting. -/
theorem marker_toggle_counterexample :
    hasSub "=\"22\"".data
      (buildSvg (parse "A->B: hi") ⟨false, false, false, "Inter", "circle"⟩
        DEFAULT_LAYOUT).data = false ∧
    (svgParts (parse "A->B: hi") ⟨false, false, false, "Inter", "circle"⟩
        DEFAULT_LAYOUT).countP
      (fun s => hasSub ">1</text>".data s.data) = 1 := by
  with_unfolding_all decide

/-- C1 (amended): the step marker is drawn twice per message exactly when the
step-number-coloring toggle is on — a filled circle and numeral at the
message's row y on the source lifeline, and a second pair at the fixed
left-margin x `22` — while with the toggle off a single plain numeral is
drawn at the source lifeline only; the numeral shown is the display step when
present, else the sequence index.  Every marker part of every message occurs
in the rendered parts. -/
theorem marker_positions (d : Diagram) (o : Opts) (l : Layout) (m : SeqMsg)
    (hm : m ∈ d.messages) :
    (∀ p ∈ markersOf o
        (d.participants.getD (idxOf d.participants m.fromId) ⟨"", "", ""⟩)
        (fontFam o) (cxQ l (idxOf d.participants m.fromId)) (msgY l m.step)
        (toString (displayNum m)),
      p ∈ svgParts d o l) ∧
    (o.coloredNumbers = true → ∀ fp f fx y num,
      markersOf o fp f fx y num =
        ["<circle cx=\"" ++ numStr fx ++ "\" cy=\"" ++ numStr y ++
           "\" r=\"10\" fill=\"" ++ fp.color ++ "\"/>",
         "<text x=\"" ++ numStr fx ++ "\" y=\"" ++ numStr (y + 1) ++
           "\" text-anchor=\"middle\" dominant-baseline=\"middle\" font-family=\"" ++
           f ++ "\" font-size=\"11\" font-weight=\"700\" fill=\"#000000\">" ++
           num ++ "</text>",
         "<circle cx=\"22\" cy=\"" ++ numStr y ++ "\" r=\"10\" fill=\"" ++
           fp.color ++ "\"/>",
         "<text x=\"22\" y=\"" ++ numStr (y + 1) ++
           "\" text-anchor=\"middle\" dominant-baseline=\"middle\" font-family=\"" ++
           f ++ "\" font-size=\"11\" font-weight=\"700\" fill=\"#000000\">" ++
           num ++ "</text>"]) ∧
    (o.coloredNumbers = false → ∀ fp f fx y num,
      markersOf o fp f fx y num =
        ["<text x=\"" ++ numStr fx ++ "\" y=\"" ++ numStr (y + 1) ++
           "\" text-anchor=\"middle\" dominant-baseline=\"middle\" font-family=\"" ++
           f ++ "\" font-size=\"13\" font-weight=\"700\" fill=\"#000000\">" ++
           num ++ "</text>"]) := by
  refine ⟨?_, ?_, ?_⟩
  · intro p hp
    have hmem : p ∈ msgParts o l d.participants m := by
      unfold msgParts msgPartsAux
      dsimp only
      exact List.mem_append_right _ hp
    have hflat : p ∈ d.messages.flatMap (msgParts o l d.participants) :=
      List.mem_flatMap.mpr ⟨m, hm, hmem⟩
    unfold svgParts
    dsimp only
    simp only [List.mem_append]
    tauto
  · intro h fp f fx y num
    simp [markersOf, h]
  · intro h fp f fx y num
    simp [markersOf, h]

/-- Witness for C1 (amended): on `A->B: hi` with default options (toggle on)
the left-margin marker circle of the only message occurs in the parts. -/
theorem marker_positions_witness :
    ("<circle cx=\"22\" cy=\"192\" r=\"10\" fill=\"#ef4444\"/>" : String) ∈
      svgParts (parse "A->B: hi") DEFAULT_OPTS DEFAULT_LAYOUT :=
  (marker_positions (parse "A->B: hi") DEFAULT_OPTS DEFAULT_LAYOUT
      ⟨"A", "B", "hi", Arrow.solid, 1, none⟩ (by decide)).1
    _ (by with_unfolding_all decide)

theorem stripCI_exact (p : List Char) : ∀ (l r : List Char), ciEq p l = true →
    stripCI p (l ++ r) = some r := by
  induction p with
  | nil =>
    intro l r h
    cases l with
    | nil => rfl
    | cons c cs => simp [ciEq] at h
  | cons pc ps ih =>
    intro l r h
    cases l with
    | nil => simp [ciEq] at h
    | cons c cs =>
      simp only [ciEq, Bool.and_eq_true] at h
      simpa [stripCI, h.1] using ih cs r h.2

theorem hasPref_cons_ne {p c : Char} (ps cs : List Char) (h : p ≠ c) :
    hasPref (p :: ps) (c :: cs) = false := by
  simp [hasPref, h]

theorem dropWhile_eq_self_of_head {p : Char → Bool} {l : List Char}
    (h : ∀ c, l.head? = some c → ¬ p c) : l.dropWhile p = l := by
  cases l with
  | nil => rfl
  | cons c cs => exact List.dropWhile_cons_of_neg (by simpa using h c rfl)

theorem jsTrim_eq_self {l : List Char} (h1 : ¬ jsSpace (l.headD ' '))
    (h2 : ¬ jsSpace (l.getLastD ' ')) : jsTrim l = l := by
  unfold jsTrim
  have e1 : l.dropWhile jsSpace = l := by
    refine dropWhile_eq_self_of_head fun c hc => ?_
    have : l.headD ' ' = c := by simp [List.headD_eq_head?_getD, hc]
    rwa [this] at h1
  have e2 : l.reverse.dropWhile jsSpace = l.reverse := by
    refine dropWhile_eq_self_of_head fun c hc => ?_
    rw [← List.getLast?_eq_head?_reverse] at hc
    have : l.getLastD ' ' = c := by simp [List.getLastD_eq_getLast?, hc]
    rwa [this] at h2
  rw [e1, e2, List.reverse_reverse]

theorem classify_decl_line (A B : List Char)
    (hid : A ≠ [])
    (hidw : ∀ c ∈ A, ¬ jsSpace c)
    (hlab : B ≠ [])
    (hlabd : ∀ c ∈ B, charDot c)
    (hlh : ¬ jsSpace (B.headD ' '))
    (hll : ¬ jsSpace (B.getLastD ' ')) :
    classify ("participant " ++ (⟨A⟩ : String) ++ " as " ++ (⟨B⟩ : String)) =
      .decl ⟨A⟩ (some ⟨B⟩) := by
  obtain ⟨a, A', rfl⟩ : ∃ a A', A = a :: A' := by
    cases A with
    | nil => exact absurd rfl hid
    | cons a A' => exact ⟨a, A', rfl⟩
  obtain ⟨b, B', rfl⟩ : ∃ b B', B = b :: B' := by
    cases B with
    | nil => exact absurd rfl hlab
    | cons b B' => exact ⟨b, B', rfl⟩
  have ha : ¬ jsSpace a := hidw a (by simp)
  have hb : ¬ jsSpace b := by simpa using hlh
  have hdata : ("participant " ++ (⟨a :: A'⟩ : String) ++ " as " ++
      (⟨b :: B'⟩ : String)).data =
      'p' :: 'a' :: 'r' :: 't' :: 'i' :: 'c' :: 'i' :: 'p' :: 'a' :: 'n' :: 't' ::
        ' ' :: (a :: A' ++ (' ' :: 'a' :: 's' :: ' ' :: (b :: B'))) := by
    simp only [String.data_append]
    rw [List.append_assoc, List.append_assoc]
    rfl
  set L := 'p' :: 'a' :: 'r' :: 't' :: 'i' :: 'c' :: 'i' :: 'p' :: 'a' :: 'n' :: 't' ::
      ' ' :: (a :: A' ++ (' ' :: 'a' :: 's' :: ' ' :: (b :: B'))) with hL
  have htrim : jsTrim L = L := by
    refine jsTrim_eq_self ?_ ?_
    · exact (by decide : ¬ (jsSpace 'p' = true))
    · have e : L = ('p' :: 'a' :: 'r' :: 't' :: 'i' :: 'c' :: 'i' :: 'p' :: 'a' ::
          'n' :: 't' :: ' ' :: (a :: A' ++ [' ', 'a', 's', ' '])) ++ (b :: B') := by
        simp [hL]
      rw [e]
      simp only [List.getLastD_eq_getLast?, List.getLast?_append]
      rw [Option.or_of_isSome (by simp)]
      simpa [List.getLastD_eq_getLast?] using hll
  have hskip : skipLine L = false := by
    unfold skipLine
    rw [hL]
    rw [show ("%%".data) = '%' :: '%' :: [] from rfl,
      show ("sequenceDiagram".data) = 's' :: "equenceDiagram".data from rfl,
      show ("autonumber".data) = 'a' :: "utonumber".data from rfl,
      show ("---".data) = '-' :: "--".data from rfl,
      show ("```".data) = '`' :: "``".data from rfl]
    rw [hasPref_cons_ne _ _ (by decide), hasPref_cons_ne _ _ (by decide),
      hasPref_cons_ne _ _ (by decide), hasPref_cons_ne _ _ (by decide),
      hasPref_cons_ne _ _ (by decide)]
    rfl
  have htitle : matchTitle L = none := by
    unfold matchTitle
    have : stripCI "title:".data L = none := by
      rw [hL, show ("title:".data) = 't' :: "itle:".data from rfl]
      simp [stripCI, show charCI 't' 'p' = false from by decide]
    rw [this]
  have hpart : matchParticipant L = some (a :: A', some (b :: B')) := by
    unfold matchParticipant
    have hstrip : stripCI "participant".data L =
        some (' ' :: (a :: A' ++ (' ' :: 'a' :: 's' :: ' ' :: (b :: B')))) := by
      have e : L = "participant".data ++
          (' ' :: (a :: A' ++ (' ' :: 'a' :: 's' :: ' ' :: (b :: B')))) := by
        rw [hL]; rfl
      rw [e]
      exact stripCI_exact _ _ _ (by decide)
    rw [hstrip]
    have hsp : jsSpace ' ' = true := by decide
    have hdropA : (a :: A' ++ (' ' :: 'a' :: 's' :: ' ' :: (b :: B'))).dropWhile
        jsSpace = a :: A' ++ (' ' :: 'a' :: 's' :: ' ' :: (b :: B')) :=
      List.dropWhile_cons_of_neg (by simpa using ha)
    have htakeA : (a :: A' ++ (' ' :: 'a' :: 's' :: ' ' :: (b :: B'))).takeWhile
        (fun c => ¬ jsSpace c) = a :: A' := by
      rw [List.takeWhile_append_of_pos (by intro x hx; simpa using hidw x hx)]
      rw [List.takeWhile_cons_of_neg (by simp [hsp])]
      simp
    have hdropA2 : (a :: A' ++ (' ' :: 'a' :: 's' :: ' ' :: (b :: B'))).dropWhile
        (fun c => ¬ jsSpace c) = ' ' :: 'a' :: 's' :: ' ' :: (b :: B') := by
      rw [List.dropWhile_append_of_pos (by intro x hx; simpa using hidw x hx)]
      rw [List.dropWhile_cons_of_neg (by simp [hsp])]
    have hstripAs : stripCI ['a', 's'] ('a' :: 's' :: ' ' :: (b :: B')) =
        some (' ' :: (b :: B')) := by
      have e := stripCI_exact ['a', 's'] ['a', 's'] (' ' :: (b :: B')) (by decide)
      simpa using e
    have hdropB : (' ' :: (b :: B')).dropWhile jsSpace = b :: B' := by
      rw [List.dropWhile_cons_of_pos (by simpa using hsp)]
      exact List.dropWhile_cons_of_neg (by simpa using hb)
    simp only [List.dropWhile_cons_of_pos (show jsSpace ' ' = true from hsp)]
    simp only [hdropA, htakeA, hdropA2]
    simp only [hsp, hid]
    rw [List.dropWhile_cons_of_pos (show jsSpace ' ' = true from hsp),
      List.dropWhile_cons_of_neg (show ¬ (jsSpace 'a' = true) from by decide),
      hstripAs]
    simp [hdropB, hsp, List.all_eq_true, hlabd]
    exact fun x hx => hlabd x (List.mem_cons_of_mem _ hx)
  unfold classify
  rw [hdata]
  dsimp only
  rw [htrim, hskip, htitle, hpart]
  simp

theorem addP_seen (st : PState) (id : String) (lab : Option String)
    (h : id ∈ st.participants.map Participant.id) : addP st id lab = st := by
  unfold addP
  rw [if_pos h]

/-- C10: a `participant <id> as <label>` line whose id has already been
registered (by declaration or as a message endpoint) is a complete no-op:
inserting it anywhere after the id was first seen leaves the parsed diagram —
the participant list with labels, colors and positions, the message list, and
the title — unchanged; in particular the later declaration never updates the
label.  (The id is a whitespace-free token and the label a non-empty
line-terminator-free string with non-whitespace first and last characters, so
the inserted line is recognized as a participant declaration.) -/
theorem redeclare_noop (pre post : List String) (id label : String)
    (hid : id.data ≠ [])
    (hidw : ∀ c ∈ id.data, ¬ jsSpace c)
    (hlab : label.data ≠ [])
    (hlabd : ∀ c ∈ label.data, charDot c)
    (hlh : ¬ jsSpace (label.data.headD ' '))
    (hll : ¬ jsSpace (label.data.getLastD ' '))
    (hseen : id ∈ (pre.foldl processLine initState).participants.map
      Participant.id) :
    parseLines (pre ++ ("participant " ++ id ++ " as " ++ label) :: post) =
      parseLines (pre ++ post) := by
  unfold parseLines
  rw [List.foldl_append, List.foldl_append, List.foldl_cons]
  have hcl : classify ("participant " ++ id ++ " as " ++ label) =
      .decl id (some label) := by
    obtain ⟨A⟩ := id
    obtain ⟨B⟩ := label
    exact classify_decl_line A B hid hidw hlab hlabd hlh hll
  have hstep : processLine (pre.foldl processLine initState)
      ("participant " ++ id ++ " as " ++ label) =
      pre.foldl processLine initState := by
    unfold processLine
    rw [hcl]
    exact addP_seen _ _ _ hseen
  rw [hstep]

/-- Witness for C10 at a concrete insertion: re-declaring `A` (first seen as a
message endpoint) with a fresh label changes nothing. -/
theorem redeclare_noop_witness :
    parseLines (["A->B: hi"] ++
        ("participant " ++ "A" ++ " as " ++ "Ann X") :: ["B->A: yo"]) =
      parseLines (["A->B: hi"] ++ ["B->A: yo"]) :=
  redeclare_noop ["A->B: hi"] ["B->A: yo"] "A" "Ann X" (by decide) (by decide)
    (by decide) (by decide) (by decide) (by decide) (by decide)

end Mermaid